import Mathlib

/-!
Verification of the Koios conversational RAG orchestrator.

This file is a shallow embedding, in Lean 4, of the parts of the Koios
repository that the specification's testable properties talk about:

* `src/koios/data_store/ChatHistoryStore.py` — the SQLite-backed, per-user,
  capacity-bounded chat history store (`add_message`, `add_messages`,
  `get_history`, `clear_history`).
* `src/koios/agent/workflow_actions.py` and
  `src/koios/AgentWorkflow/WorkflowActions.py` — the decision-graph node
  actions (`route_question`, `decide_after_doc_search`, `generate`,
  `web_search`).
* `src/koios/agent/prompt.py` — `Prompt.web_search_with_fallback`, the
  rate-limited DuckDuckGo search with Wikipedia fallback.
* `src/koios/AgentWorkflow/AgentWorkflow.py` — the LangGraph wiring of the
  decision graph.

Modelling conventions:

* SQLite rows are a Lean list kept in insertion order; the autoincrement
  primary key is an explicit `nextId` counter.  `ORDER BY created_at ASC`
  is modelled as a *stable* sort on `created_at` (ties keep insertion
  order, i.e. primary-key order, matching SQLite's rowid scan).
* `datetime.now(timezone.utc)` timestamps are environment inputs: each
  insertion takes its timestamp as an explicit argument, and theorems carry
  the (physically true) hypothesis that successive timestamps are
  nondecreasing.
* Python values that may be absent or `None` are `Option`; Python code that
  raises is `Except`.
* LLM chains and search providers are oracles: their outputs are explicit
  arguments (or function-valued fields of an `Oracle` structure).
* Wall-clock time (`time.time()` / `time.sleep`) is idealised as exact
  rational arithmetic: `sleep d` advances the clock by exactly `d` and the
  modelled operations themselves take zero time.
-/

namespace Koios

/-- A row of the `chat_messages` table (class `ChatMessageRecord` in
`ChatHistoryStore.py`): autoincrement primary key `id`, owner `user_id`,
`role`, `content`, and UTC `created_at` timestamp (modelled as `Nat`). -/
structure ChatMessageRecord where
  id : Nat
  user_id : String
  role : String
  content : String
  created_at : Nat
deriving Repr, DecidableEq

/-- A `{"role", "content"}` dict as produced by `ChatMessageRecord.to_dict`
and consumed by `add_messages` — the spec's *Conversation Turn*. -/
structure Turn where
  role : String
  content : String
deriving Repr, DecidableEq

/-- The state of the SQLite database behind `ChatHistoryStore`: the rows of
`chat_messages` in insertion order, plus the next autoincrement key. -/
structure ChatHistoryStore where
  rows : List ChatMessageRecord
  nextId : Nat
deriving Repr, DecidableEq

namespace ChatHistoryStore

/-- A freshly created database: no rows, autoincrement starts at 1. -/
def empty : ChatHistoryStore := ⟨[], 1⟩

/-- Model of `WHERE user_id == user_id`: the rows belonging to one user, in
insertion order. -/
def userRows (s : ChatHistoryStore) (uid : String) : List ChatMessageRecord :=
  s.rows.filter (fun r => r.user_id == uid)

/-- One step of a stable insertion sort on `created_at`: insert `r` after
every already-placed record whose timestamp is `≤ r.created_at`. -/
def insertByTime (acc : List ChatMessageRecord) (r : ChatMessageRecord) :
    List ChatMessageRecord :=
  match acc with
  | [] => [r]
  | x :: xs =>
      if r.created_at < x.created_at then r :: x :: xs
      else x :: insertByTime xs r

/-- Model of `ORDER BY created_at ASC` as a stable sort: ties keep insertion
(primary-key) order. -/
def sortByTime (rs : List ChatMessageRecord) : List ChatMessageRecord :=
  rs.foldl insertByTime []

/-- Model of `ChatHistoryStore.get_history`: select this user's rows, order by
`created_at` ascending, limit to `cap` (= `config.max_messages_per_user`),
and project each row to its `{"role", "content"}` dict. -/
def get_history (s : ChatHistoryStore) (cap : Nat) (uid : String) : List Turn :=
  ((sortByTime (s.userRows uid)).take cap).map (fun r => ⟨r.role, r.content⟩)

/-- Model of `ChatHistoryStore.add_message`: count this user's rows; if the count has
reached `cap`, delete the `count - cap + 1` oldest rows (oldest by
`created_at`, ids collected by the subquery, deletion by `id IN (...)` over
the whole table); then insert the new row with the next autoincrement id
and the current timestamp `t`. -/
def add_message (s : ChatHistoryStore) (cap : Nat) (uid role content : String)
    (t : Nat) : ChatHistoryStore :=
  let count := (s.userRows uid).length
  let rows' :=
    if cap ≤ count then
      let overflow := count - cap + 1
      let oldestIds := ((sortByTime (s.userRows uid)).take overflow).map
        (fun r => r.id)
      s.rows.filter (fun r => !(oldestIds.contains r.id))
    else s.rows
  { rows := rows' ++ [⟨s.nextId, uid, role, content, t⟩],
    nextId := s.nextId + 1 }

/-- Model of `ChatHistoryStore.add_messages`: append several `{"role", "content"}`
dicts by calling `add_message` on each in order.  The timestamp taken by
each underlying `datetime.now` call is supplied alongside its message. -/
def add_messages (s : ChatHistoryStore) (cap : Nat) (uid : String)
    (msgs : List (Turn × Nat)) : ChatHistoryStore :=
  msgs.foldl (fun st m => st.add_message cap uid m.1.role m.1.content m.2) s

/-- Model of `ChatHistoryStore.clear_history`: delete every row of this user and
return the new database state together with the deleted row count. -/
def clear_history (s : ChatHistoryStore) (uid : String) :
    ChatHistoryStore × Nat :=
  let deleted := (s.userRows uid).length
  ({ rows := s.rows.filter (fun r => !(r.user_id == uid)),
     nextId := s.nextId }, deleted)

end ChatHistoryStore

/-- Rows listed in nondecreasing `created_at` order (chronological). -/
def ChronSorted (rs : List ChatMessageRecord) : Prop :=
  rs.Pairwise (fun a b => a.created_at ≤ b.created_at)

/-- The records that a run of sequential `add_message` calls inserts:
autoincrement ids starting at `n`, one record per `(turn, timestamp)`. -/
def recordsOf (uid : String) : Nat → List (Turn × Nat) → List ChatMessageRecord
  | _, [] => []
  | n, m :: ms => ⟨n, uid, m.1.role, m.1.content, m.2⟩ :: recordsOf uid (n + 1) ms

/-- A Python value sitting in a parsed JSON object: either a string or
anything else (number, list, nested object, ...).  Only stringness matters
to `route_question`'s membership test against the three intent names. -/
inductive PyValue
  | str (s : String)
  | other
deriving Repr, DecidableEq

/-- The outcome of invoking the router chain
`prompt | llm | StrOutputParser() | JsonOutputParser()`
(`Prompt.get_router_chain` via `Prompt.__prompt_using_json`): the LLM text
either fails JSON extraction (the `JsonOutputParser` raises
`OutputParserException`), parses to a non-object (so the subsequent
`output.get` raises `AttributeError`), or parses to a JSON object, modelled
as an association list of its fields. -/
inductive ChainResult
  | parseFailure
  | nonDict
  | dict (kvs : List (String × PyValue))
deriving Repr, DecidableEq

/-- The Python exceptions that can escape `route_question`. -/
inductive PyError
  | outputParserException
  | attributeError
deriving Repr, DecidableEq

/-- Python `dict.get(key, default)` on a parsed JSON object. -/
def dictGet (kvs : List (String × PyValue)) (k : String) (dflt : PyValue) :
    PyValue :=
  match kvs.lookup k with
  | some v => v
  | none => dflt

/-- Model of `WorkflowActions.route_question` from
`src/koios/agent/workflow_actions.py` (the agent-package revision): invoke
the router chain, read `output.get('choice', 'doc_search')`, coerce any
value outside `('doc_search', 'web_search', 'generate')` to `'doc_search'`,
and downgrade `'web_search'` to `'doc_search'` when internet search is
disabled.  A chain result that raises (unparseable completion, or `.get`
on a non-object) propagates out of `route_question`, which has no
exception handler. -/
def route_question (enable_internet_search : Bool)
    (routerOutput : ChainResult) : Except PyError String :=
  match routerOutput with
  | ChainResult.parseFailure => Except.error PyError.outputParserException
  | ChainResult.nonDict => Except.error PyError.attributeError
  | ChainResult.dict kvs =>
      let choice0 := dictGet kvs ("choice") (PyValue.str ("doc_search"))
      let choice1 :=
        match choice0 with
        | PyValue.str s =>
            if s = "doc_search" ∨ s = "web_search" ∨ s = "generate" then s
            else "doc_search"
        | PyValue.other => "doc_search"
      let choice2 :=
        if choice1 = "web_search" ∧ enable_internet_search = false then
          "doc_search"
        else choice1
      Except.ok choice2

/-- The LangGraph state (`GraphState.py`).  Keys that a node may find
absent — and values Python would see as `None` — are `Option`; `question`
is always supplied by the caller of `invoke`. -/
structure GraphState where
  question : String
  context : Option String
  search_query : Option String
  history : List Turn
  generation : Option String
deriving Repr, DecidableEq

/-- The fixed marker `generate` substitutes for a missing/empty context. -/
def internal_knowledge_marker : String :=
  "No additional context provided. Answer based on your internal knowledge."

/-- The variables handed to the generate chain:
`{"context", "question", "history"}`. -/
structure GenerateChainInput where
  context : String
  question : String
  history : List Turn
deriving Repr, DecidableEq

/-- The `results` dict built by `WorkflowActions.generate` before invoking
the generate chain: `state.get("context")` is replaced by the
internal-knowledge marker when it is missing, `None`, or `""` (Python
`if not context`), and passed through unchanged otherwise. -/
def generate_chain_input (state : GraphState) : GenerateChainInput :=
  { context :=
      match state.context with
      | none => internal_knowledge_marker
      | some c => if c = "" then internal_knowledge_marker else c,
    question := state.question,
    history := state.history }

/-- The collaborators of one graph invocation, as oracles: the router
chain's parsed output, the document retriever (question ↦ serialized
context; the chat history it also conditions on is folded into the
function), the query-transform chain (question ↦ optimised query), the web
search path (query ↦ serialized context), and the generate chain. -/
structure Oracle where
  router_output : ChainResult
  doc_search_context : String → String
  transformed_query : String → String
  web_search_provider : String → String
  generate_llm : GenerateChainInput → String

/-- Model of `WorkflowActions.generate`: build the chain input and store the chain's
text as `generation`. -/
def generate (env : Oracle) (state : GraphState) : GraphState :=
  { state with generation := some (env.generate_llm (generate_chain_input state)) }

/-- Model of `WorkflowActions.doc_search`: store the retriever's serialized result
as `context`. -/
def doc_search (env : Oracle) (state : GraphState) : GraphState :=
  { state with context := some (env.doc_search_context state.question) }

/-- Model of `WorkflowActions.transform_query`: store the query chain's `"query"`
field as `search_query`. -/
def transform_query (env : Oracle) (state : GraphState) : GraphState :=
  { state with search_query := some (env.transformed_query state.question) }

/-- Model of `WorkflowActions.web_search`: `state.get('search_query') or
state['question']` picks the raw question whenever `search_query` is
absent, `None`, or `""` (all falsy); the provider's result becomes
`context`.  The second component is the query actually sent to the
provider. -/
def web_search (env : Oracle) (state : GraphState) : GraphState × String :=
  let search_query :=
    match state.search_query with
    | none => state.question
    | some s => if s = "" then state.question else s
  ({ state with context := some (env.web_search_provider search_query) },
    search_query)

/-- Model of `WorkflowActions.decide_after_doc_search`: route to `web_search` only
when the context is falsy or all-whitespace *and* internet search is
enabled; otherwise route to `generate`. -/
def decide_after_doc_search (enable_internet_search : Bool)
    (state : GraphState) : String :=
  let context := state.context.getD ("")
  if context = "" ∨ context.trim.length = 0 then
    if enable_internet_search then "web_search" else "generate"
  else "generate"

/-- The nodes of the decision graph of `AgentWorkflow.__init__`. -/
inductive Node
  | doc_search
  | transform_query
  | web_search
  | generate
deriving Repr, DecidableEq

namespace AgentWorkflow

/-- Model of `WorkflowActions.route_question` from
`src/koios/AgentWorkflow/WorkflowActions.py` — the revision that the graph
of `src/koios/AgentWorkflow/AgentWorkflow.py` actually binds (and that
`main.py`, `streamlit_app.py` and `api_server.py` construct): the same
defensive coercion of `output.get('choice', 'doc_search')` as the
agent-package revision, but *no* internet-disabled downgrade — this method
never consults `enable_internet_search`, so a `web_search` choice is
returned as-is even when internet search is disabled. -/
def route_question (routerOutput : ChainResult) : Except PyError String :=
  match routerOutput with
  | ChainResult.parseFailure => Except.error PyError.outputParserException
  | ChainResult.nonDict => Except.error PyError.attributeError
  | ChainResult.dict kvs =>
      let choice0 := dictGet kvs ("choice") (PyValue.str ("doc_search"))
      let choice :=
        match choice0 with
        | PyValue.str s =>
            if s = "doc_search" ∨ s = "web_search" ∨ s = "generate" then s
            else "doc_search"
        | PyValue.other => "doc_search"
      Except.ok choice

/-- One invocation of the compiled graph of `AgentWorkflow.__init__`
(`src/koios/AgentWorkflow/AgentWorkflow.py`), with the action methods of
the `WorkflowActions` class bound there: conditional entry by that class's
`route_question` (`doc_search ↦ doc_search`, `web_search ↦
transform_query`, `generate ↦ generate`), conditional edge after
`doc_search` by `decide_after_doc_search` (`web_search ↦
transform_query`), and fixed edges `transform_query → web_search →
generate → END`.  Returns the final state (or the exception the router
raised, in which case no node ran) together with the list of executed
nodes in order. -/
def runWorkflow (enable_internet_search : Bool) (env : Oracle)
    (state0 : GraphState) : Except PyError GraphState × List Node :=
  match AgentWorkflow.route_question env.router_output with
  | Except.error e => (Except.error e, [])
  | Except.ok choice =>
      if choice = "doc_search" then
        let st1 := doc_search env state0
        if decide_after_doc_search enable_internet_search st1 = "web_search"
        then
          let st2 := transform_query env st1
          let st3 := (web_search env st2).1
          (Except.ok (generate env st3),
            [Node.doc_search, Node.transform_query, Node.web_search,
              Node.generate])
        else
          (Except.ok (generate env st1), [Node.doc_search, Node.generate])
      else if choice = "web_search" then
        let st1 := transform_query env state0
        let st2 := (web_search env st1).1
        (Except.ok (generate env st2),
          [Node.transform_query, Node.web_search, Node.generate])
      else
        (Except.ok (generate env state0), [Node.generate])

end AgentWorkflow

namespace Prompt

/-- The class-level `Prompt._last_ddg_search_time` shared by every caller
in the process. -/
structure RateState where
  last : ℚ
deriving Repr, DecidableEq

/-- The rate-limit preamble of `Prompt.web_search_with_fallback` under the
idealised clock: read `time.time()` (= `now`), sleep the remainder of the
1-second interval if needed, then set `Prompt._last_ddg_search_time` to the
post-sleep `time.time()`.  Returns the updated shared state and the instant
at which the DuckDuckGo provider is then invoked. -/
def rateStep (st : RateState) (now : ℚ) : RateState × ℚ :=
  let time_since_last_search := now - st.last
  if time_since_last_search < 1 then
    let nowAfterSleep := now + (1 - time_since_last_search)
    ({ last := nowAfterSleep }, nowAfterSleep)
  else
    ({ last := now }, now)

/-- Model of `Prompt.web_search_with_fallback`: rate-limit, then try DuckDuckGo;
on any exception fall back to Wikipedia; if that also raises, return the
`f"Search failed: {e}. Fallback failed: {wiki_e}"` string instead of
propagating.  The provider outcomes are oracles (`Except.error` = the call
raised, carrying `str(exception)`).  Result: the updated shared rate
state, the provider-invocation instant, and the returned context string. -/
def web_search_with_fallback (st : RateState) (now : ℚ)
    (ddg : Except String String) (wiki : Except String String) :
    RateState × ℚ × String :=
  let p := rateStep st now
  let result :=
    match ddg with
    | Except.ok r => r
    | Except.error e =>
        match wiki with
        | Except.ok w => w
        | Except.error wiki_e =>
            "Search failed: " ++ e ++ ". Fallback failed: " ++ wiki_e
  (p.1, p.2, result)

end Prompt

namespace ChatHistoryStore

theorem insertByTime_append (r : ChatMessageRecord) :
    ∀ acc : List ChatMessageRecord,
      (∀ x ∈ acc, x.created_at ≤ r.created_at) →
      insertByTime acc r = acc ++ [r] := by
  intro acc
  induction acc with
  | nil => intro _; rfl
  | cons x xs ih =>
      intro h
      have hx : x.created_at ≤ r.created_at := h x (by simp)
      have : ¬ r.created_at < x.created_at := not_lt.mpr hx
      simp only [insertByTime, if_neg this, List.cons_append, List.cons.injEq,
        true_and]
      exact ih (fun y hy => h y (by simp [hy]))

theorem foldl_insertByTime_sorted :
    ∀ (rs acc : List ChatMessageRecord),
      ChronSorted (acc ++ rs) →
      rs.foldl insertByTime acc = acc ++ rs := by
  intro rs
  induction rs with
  | nil => intro acc _; simp
  | cons r rs ih =>
      intro acc h
      have hacc : ∀ x ∈ acc, x.created_at ≤ r.created_at := by
        intro x hx
        have := (List.pairwise_append.mp h).2.2
        exact this x hx r (by simp)
      have hins : insertByTime acc r = acc ++ [r] := insertByTime_append r acc hacc
      have h' : ChronSorted ((acc ++ [r]) ++ rs) := by
        simpa [List.append_assoc] using h
      calc (r :: rs).foldl insertByTime acc
          = rs.foldl insertByTime (insertByTime acc r) := rfl
        _ = rs.foldl insertByTime (acc ++ [r]) := by rw [hins]
        _ = (acc ++ [r]) ++ rs := ih (acc ++ [r]) h'
        _ = acc ++ r :: rs := by simp

/-- A chronologically ordered table is a fixed point of the modelled
`ORDER BY created_at ASC`. -/
theorem sortByTime_eq_self {rs : List ChatMessageRecord} (h : ChronSorted rs) :
    sortByTime rs = rs := by
  simpa using foldl_insertByTime_sorted rs [] (by simpa using h)

theorem userRows_eq_self {s : ChatHistoryStore} {uid : String}
    (h : ∀ r ∈ s.rows, r.user_id = uid) : s.userRows uid = s.rows := by
  apply List.filter_eq_self.mpr
  intro r hr
  simpa using h r hr

/-- One `add_message` call on a single-user table whose rows are
chronologically ordered with strictly increasing ids and at most `cap`
rows: it drops the head exactly when the table is full, then appends the
fresh row. -/
theorem add_message_rows_eq (cap : Nat) (hcap : 1 ≤ cap)
    (uid role content : String) (t : Nat) (s : ChatHistoryStore)
    (huid : ∀ r ∈ s.rows, r.user_id = uid)
    (hchron : ChronSorted s.rows)
    (hids : s.rows.Pairwise (fun a b => a.id < b.id))
    (hlen : s.rows.length ≤ cap) :
    (s.add_message cap uid role content t).rows
      = s.rows.drop (s.rows.length + 1 - cap)
          ++ [⟨s.nextId, uid, role, content, t⟩]
    ∧ (s.add_message cap uid role content t).nextId = s.nextId + 1 := by
  refine ⟨?_, rfl⟩
  show (if cap ≤ (s.userRows uid).length then _ else s.rows) ++ _ = _
  rw [userRows_eq_self huid]
  by_cases hc : cap ≤ s.rows.length
  · have heq : s.rows.length = cap := le_antisymm hlen hc
    rw [if_pos hc, sortByTime_eq_self hchron]
    obtain ⟨hd, tl, hrows⟩ : ∃ hd tl, s.rows = hd :: tl := by
      cases h : s.rows with
      | nil => exfalso; rw [h] at heq; simp at heq; omega
      | cons a l => exact ⟨a, l, rfl⟩
    rw [hrows] at hids heq ⊢
    have hover : (hd :: tl).length - cap + 1 = 1 := by
      simp only [List.length_cons] at heq ⊢; omega
    have hdrop : (hd :: tl).length + 1 - cap = 1 := by
      simp only [List.length_cons] at heq ⊢; omega
    rw [hover, hdrop]
    simp only [List.take_succ_cons, List.take_zero, List.map_cons,
      List.map_nil, List.drop_succ_cons, List.drop_zero]
    congr 1
    have hhd : (!([hd.id].contains hd.id)) = false := by simp
    rw [List.filter_cons, hhd]
    simp only [Bool.false_eq_true, if_false]
    apply List.filter_eq_self.mpr
    intro a ha
    have hlt2 : hd.id < a.id := (List.pairwise_cons.mp hids).1 a ha
    have hne : a.id ≠ hd.id := by omega
    simp [List.contains_cons, hne]
  · have : s.rows.length + 1 - cap = 0 := by omega
    rw [if_neg hc, this, List.drop_zero]

theorem drop_one_append_drop {α : Type} (l x : List α) (k : Nat)
    (hl : l ≠ []) : (l.drop 1 ++ x).drop k = (l ++ x).drop (k + 1) := by
  cases l with
  | nil => exact absurd rfl hl
  | cons hd tl => simp [List.drop_succ_cons]

/-- Sequential `add_message` calls on a well-formed single-user table keep
exactly the chronologically newest window: the resulting rows are the
concatenation of the old rows and the freshly inserted records, with the
oldest ones dropped as soon as the count would exceed `cap`. -/
theorem add_messages_rows_eq (cap : Nat) (hcap : 1 ≤ cap) (uid : String) :
    ∀ (msgs : List (Turn × Nat)) (s : ChatHistoryStore),
      (∀ r ∈ s.rows, r.user_id = uid) →
      ChronSorted s.rows →
      s.rows.Pairwise (fun a b => a.id < b.id) →
      (∀ r ∈ s.rows, r.id < s.nextId) →
      s.rows.length ≤ cap →
      (∀ r ∈ s.rows, ∀ m ∈ msgs, r.created_at ≤ m.2) →
      msgs.Pairwise (fun a b => a.2 ≤ b.2) →
      (s.add_messages cap uid msgs).rows
        = (s.rows ++ recordsOf uid s.nextId msgs).drop
            (s.rows.length + msgs.length - cap)
      ∧ (s.add_messages cap uid msgs).nextId = s.nextId + msgs.length := by
  intro msgs
  induction msgs with
  | nil =>
      intro s huid hchron hids hlt hlen htime hmono
      have h0 : s.rows.length + 0 - cap = 0 := by omega
      have h0' : s.rows.length - cap = 0 := by omega
      simp [add_messages, recordsOf, h0, h0']
  | cons m ms ih =>
      intro s huid hchron hids hlt hlen htime hmono
      have hstep := add_message_rows_eq cap hcap uid m.1.role m.1.content m.2
        s huid hchron hids hlen
      set d := s.rows.length + 1 - cap with hd
      set newRec : ChatMessageRecord :=
        ⟨s.nextId, uid, m.1.role, m.1.content, m.2⟩ with hnew
      set s' := s.add_message cap uid m.1.role m.1.content m.2 with hs'
      have hrows' : s'.rows = s.rows.drop d ++ [newRec] := hstep.1
      have hnext' : s'.nextId = s.nextId + 1 := hstep.2
      have hmem_drop : ∀ r ∈ s.rows.drop d, r ∈ s.rows := fun r hr =>
        List.mem_of_mem_drop hr
      have htm : ∀ r ∈ s.rows, r.created_at ≤ m.2 := fun r hr =>
        htime r hr m (by simp)
      have hmono' : ms.Pairwise (fun a b => a.2 ≤ b.2) :=
        (List.pairwise_cons.mp hmono).2
      have hmhead : ∀ b ∈ ms, m.2 ≤ b.2 := (List.pairwise_cons.mp hmono).1
      have huid' : ∀ r ∈ s'.rows, r.user_id = uid := by
        rw [hrows']
        intro r hr
        rcases List.mem_append.mp hr with h | h
        · exact huid r (hmem_drop r h)
        · simp only [List.mem_singleton] at h; rw [h]
      have hchron' : ChronSorted s'.rows := by
        rw [hrows']
        apply List.pairwise_append.mpr
        refine ⟨hchron.drop, List.pairwise_singleton _ _, ?_⟩
        intro a ha b hb
        simp only [List.mem_singleton] at hb
        rw [hb]
        exact htm a (hmem_drop a ha)
      have hids' : s'.rows.Pairwise (fun a b => a.id < b.id) := by
        rw [hrows']
        apply List.pairwise_append.mpr
        refine ⟨hids.drop, List.pairwise_singleton _ _, ?_⟩
        intro a ha b hb
        simp only [List.mem_singleton] at hb
        rw [hb]
        exact hlt a (hmem_drop a ha)
      have hlt' : ∀ r ∈ s'.rows, r.id < s'.nextId := by
        rw [hrows', hnext']
        intro r hr
        rcases List.mem_append.mp hr with h | h
        · exact Nat.lt_succ_of_lt (hlt r (hmem_drop r h))
        · simp only [List.mem_singleton] at h; rw [h]; exact Nat.lt_succ_self _
      have hlen' : s'.rows.length ≤ cap := by
        rw [hrows']
        simp only [List.length_append, List.length_drop, List.length_singleton]
        omega
      have htime' : ∀ r ∈ s'.rows, ∀ m' ∈ ms, r.created_at ≤ m'.2 := by
        rw [hrows']
        intro r hr m' hm'
        rcases List.mem_append.mp hr with h | h
        · exact htime r (hmem_drop r h) m' (by simp [hm'])
        · simp only [List.mem_singleton] at h
          rw [h]
          exact hmhead m' hm'
      have hih := ih s' huid' hchron' hids' hlt' hlen' htime' hmono'
      have hrun : (s.add_messages cap uid (m :: ms)) = s'.add_messages cap uid ms := rfl
      constructor
      · rw [hrun, hih.1, hrows', hnext']
        have hrec : recordsOf uid s.nextId (m :: ms)
            = newRec :: recordsOf uid (s.nextId + 1) ms := rfl
        rw [hrec]
        have hlen_rows' : (s.rows.drop d ++ [newRec]).length
            = s.rows.length - d + 1 := by
          simp [List.length_append, List.length_drop]
        rw [hlen_rows']
        by_cases hfull : s.rows.length = cap
        · have hd1 : d = 1 := by omega
          have hne : s.rows ≠ [] := by
            intro hnil; rw [hnil] at hfull; simp at hfull; omega
          have e1 : s.rows.length - 1 + 1 + ms.length - cap = ms.length := by
            omega
          have e2 : s.rows.length + (m :: ms).length - cap = ms.length + 1 := by
            simp only [List.length_cons]; omega
          rw [hd1, e1, e2, List.append_assoc, List.singleton_append]
          exact drop_one_append_drop s.rows
            (newRec :: recordsOf uid (s.nextId + 1) ms) ms.length hne
        · have hd0 : d = 0 := by omega
          have e1 : s.rows.length - 0 + 1 + ms.length - cap
              = s.rows.length + (m :: ms).length - cap := by
            simp only [List.length_cons]; omega
          rw [hd0, List.drop_zero, e1, List.append_assoc, List.singleton_append]
      · rw [hrun, hih.2, hnext']
        simp only [List.length_cons]
        omega

theorem recordsOf_length (uid : String) :
    ∀ (n : Nat) (msgs : List (Turn × Nat)),
      (recordsOf uid n msgs).length = msgs.length := by
  intro n msgs
  induction msgs generalizing n with
  | nil => rfl
  | cons m ms ih => simp [recordsOf, ih]

theorem recordsOf_map_turn (uid : String) :
    ∀ (n : Nat) (msgs : List (Turn × Nat)),
      (recordsOf uid n msgs).map (fun r => (⟨r.role, r.content⟩ : Turn))
        = msgs.map Prod.fst := by
  intro n msgs
  induction msgs generalizing n with
  | nil => rfl
  | cons m ms ih => simp [recordsOf, ih]

theorem recordsOf_user (uid : String) :
    ∀ (n : Nat) (msgs : List (Turn × Nat)),
      ∀ r ∈ recordsOf uid n msgs, r.user_id = uid := by
  intro n msgs
  induction msgs generalizing n with
  | nil => intro r hr; simp [recordsOf] at hr
  | cons m ms ih =>
      intro r hr
      rcases (by simpa [recordsOf] using hr :
        r = (⟨n, uid, m.1.role, m.1.content, m.2⟩ : ChatMessageRecord)
          ∨ r ∈ recordsOf uid (n + 1) ms) with h | h
      · rw [h]
      · exact ih (n + 1) r h

theorem recordsOf_time_mem (uid : String) :
    ∀ (n : Nat) (msgs : List (Turn × Nat)),
      ∀ r ∈ recordsOf uid n msgs, ∃ m ∈ msgs, r.created_at = m.2 := by
  intro n msgs
  induction msgs generalizing n with
  | nil => intro r hr; simp [recordsOf] at hr
  | cons m ms ih =>
      intro r hr
      rcases (by simpa [recordsOf] using hr :
        r = (⟨n, uid, m.1.role, m.1.content, m.2⟩ : ChatMessageRecord)
          ∨ r ∈ recordsOf uid (n + 1) ms) with h | h
      · exact ⟨m, by simp, by rw [h]⟩
      · obtain ⟨m', hm', he⟩ := ih (n + 1) r h
        exact ⟨m', by simp [hm'], he⟩

theorem recordsOf_chron (uid : String) :
    ∀ (n : Nat) (msgs : List (Turn × Nat)),
      msgs.Pairwise (fun a b => a.2 ≤ b.2) →
      ChronSorted (recordsOf uid n msgs) := by
  intro n msgs
  induction msgs generalizing n with
  | nil => intro _; exact List.Pairwise.nil
  | cons m ms ih =>
      intro h
      have h1 := (List.pairwise_cons.mp h).1
      have h2 := (List.pairwise_cons.mp h).2
      apply List.pairwise_cons.mpr
      refine ⟨?_, ih (n + 1) h2⟩
      intro r hr
      obtain ⟨m', hm', he⟩ := recordsOf_time_mem uid (n + 1) ms r hr
      show m.2 ≤ r.created_at
      rw [he]
      exact h1 m' hm'

/-- The observable content of the store after a run of sequential inserts
into an empty database: `get_history` returns exactly the newest
`min (length msgs) cap` turns, oldest first. -/
theorem get_history_add_messages_empty (cap : Nat) (hcap : 1 ≤ cap)
    (uid : String) (msgs : List (Turn × Nat))
    (hmono : msgs.Pairwise (fun a b => a.2 ≤ b.2)) :
    (ChatHistoryStore.empty.add_messages cap uid msgs).get_history cap uid
      = (msgs.map Prod.fst).drop (msgs.length - cap) := by
  have hmain := add_messages_rows_eq cap hcap uid msgs ChatHistoryStore.empty
    (by intro r hr; simp [ChatHistoryStore.empty] at hr)
    List.Pairwise.nil List.Pairwise.nil
    (by intro r hr; simp [ChatHistoryStore.empty] at hr)
    (by simp [ChatHistoryStore.empty])
    (by intro r hr; simp [ChatHistoryStore.empty] at hr)
    hmono
  have hrows : (ChatHistoryStore.empty.add_messages cap uid msgs).rows
      = (recordsOf uid 1 msgs).drop (msgs.length - cap) := by
    rw [hmain.1]; simp [ChatHistoryStore.empty]
  unfold get_history
  have huser : (ChatHistoryStore.empty.add_messages cap uid msgs).userRows uid
      = (recordsOf uid 1 msgs).drop (msgs.length - cap) := by
    unfold userRows
    rw [hrows]
    apply List.filter_eq_self.mpr
    intro r hr
    simpa using recordsOf_user uid 1 msgs r (List.mem_of_mem_drop hr)
  rw [huser]
  have hchron : ChronSorted ((recordsOf uid 1 msgs).drop (msgs.length - cap)) :=
    (recordsOf_chron uid 1 msgs hmono).drop
  rw [sortByTime_eq_self hchron]
  have hlen : ((recordsOf uid 1 msgs).drop (msgs.length - cap)).length ≤ cap := by
    simp only [List.length_drop, recordsOf_length]
    omega
  rw [List.take_of_length_le hlen, List.map_drop, recordsOf_map_turn]

end ChatHistoryStore

namespace ChatHistoryStore

/-- C2: starting from an empty history, after `N+1` sequential
`add_message` calls (`N` = configured cap; timestamps nondecreasing, as
successive `datetime.now` reads are), `get_history` returns exactly `N`
turns — the newest `N`, in insertion order — excluding precisely the
single oldest inserted turn.  Eviction is strict FIFO on the comparison
key `(created_at, id)`: the model's stable `ORDER BY created_at` keeps
insertion (primary-key) order among equal timestamps. -/
theorem fifo_eviction_boundary (cap : Nat) (hcap : 1 ≤ cap) (uid : String)
    (msgs : List (Turn × Nat)) (hlen : msgs.length = cap + 1)
    (hmono : msgs.Pairwise (fun a b => a.2 ≤ b.2)) :
    (ChatHistoryStore.empty.add_messages cap uid msgs).get_history cap uid
      = (msgs.drop 1).map Prod.fst
    ∧ ((ChatHistoryStore.empty.add_messages cap uid msgs).get_history cap
        uid).length = cap := by
  have h := get_history_add_messages_empty cap hcap uid msgs hmono
  have h1 : msgs.length - cap = 1 := by omega
  rw [h1] at h
  constructor
  · rw [h, ← List.map_drop]
  · rw [h]
    simp only [List.length_drop, List.length_map]
    omega

theorem fifo_eviction_boundary_witness :
    (ChatHistoryStore.empty.add_messages 2 "alice"
        [(⟨"user", "m1"⟩, 10), (⟨"assistant", "m2"⟩, 11),
          (⟨"user", "m3"⟩, 12)]).get_history 2 "alice"
      = ([((⟨"user", "m1"⟩ : Turn), 10), (⟨"assistant", "m2"⟩, 11),
          (⟨"user", "m3"⟩, 12)].drop 1).map Prod.fst
    ∧ ((ChatHistoryStore.empty.add_messages 2 "alice"
        [(⟨"user", "m1"⟩, 10), (⟨"assistant", "m2"⟩, 11),
          (⟨"user", "m3"⟩, 12)]).get_history 2 "alice").length = 2 :=
  fifo_eviction_boundary 2 (by decide) "alice"
    [(⟨"user", "m1"⟩, 10), (⟨"assistant", "m2"⟩, 11), (⟨"user", "m3"⟩, 12)]
    (by decide) (by decide)

/-- C8: a sequence of turns appended to an empty history via
`add_messages` (at most the cap many, timestamps nondecreasing) is
returned by `get_history` with `role` and `content` preserved exactly and
in insertion order. -/
theorem roundtrip_add_get (cap : Nat) (hcap : 1 ≤ cap) (uid : String)
    (msgs : List (Turn × Nat)) (hlen : msgs.length ≤ cap)
    (hmono : msgs.Pairwise (fun a b => a.2 ≤ b.2)) :
    (ChatHistoryStore.empty.add_messages cap uid msgs).get_history cap uid
      = msgs.map Prod.fst := by
  have h := get_history_add_messages_empty cap hcap uid msgs hmono
  have h1 : msgs.length - cap = 0 := by omega
  rw [h1, List.drop_zero] at h
  exact h

theorem roundtrip_add_get_witness :
    (ChatHistoryStore.empty.add_messages 3 "bob"
        [(⟨"user", "hi"⟩, 4), (⟨"assistant", "hello"⟩, 5)]).get_history
        3 "bob"
      = [((⟨"user", "hi"⟩ : Turn), 4),
          (⟨"assistant", "hello"⟩, 5)].map Prod.fst :=
  roundtrip_add_get 3 (by decide) "bob"
    [(⟨"user", "hi"⟩, 4), (⟨"assistant", "hello"⟩, 5)] (by decide) (by decide)

/-- C9: `clear_history` is idempotent — the first call returns the
(non-negative) number of rows the user had, an immediately repeated call
returns 0, and `get_history` afterwards returns the empty sequence. -/
theorem clear_history_idempotent (s : ChatHistoryStore) (uid : String)
    (cap : Nat) :
    0 ≤ (s.clear_history uid).2
    ∧ ((s.clear_history uid).1.clear_history uid).2 = 0
    ∧ (s.clear_history uid).1.get_history cap uid = [] := by
  have huser : (s.clear_history uid).1.userRows uid = [] := by
    show (s.rows.filter (fun r => !(r.user_id == uid))).filter
      (fun r => r.user_id == uid) = []
    rw [List.filter_filter]
    apply List.filter_eq_nil_iff.mpr
    intro r hr
    cases h : (r.user_id == uid) <;> simp [h]
  refine ⟨Nat.zero_le _, ?_, ?_⟩
  · show ((s.clear_history uid).1.userRows uid).length = 0
    rw [huser]
    rfl
  · show ((sortByTime ((s.clear_history uid).1.userRows uid)).take cap).map
      (fun r => (⟨r.role, r.content⟩ : Turn)) = []
    rw [huser]
    simp [sortByTime]

end ChatHistoryStore

/-- Every successful `route_question` on a parsed JSON object yields
`doc_search`, `generate`, or — only with internet search enabled and the
model explicitly asking for it — `web_search`. -/
theorem route_question_dict_cases (e : Bool)
    (kvs : List (String × PyValue)) :
    route_question e (ChainResult.dict kvs) = Except.ok ("doc_search")
    ∨ route_question e (ChainResult.dict kvs) = Except.ok ("generate")
    ∨ (route_question e (ChainResult.dict kvs) = Except.ok ("web_search")
        ∧ e = true
        ∧ kvs.lookup ("choice") = some (PyValue.str ("web_search"))) := by
  rcases hl : kvs.lookup ("choice") with _ | v
  · left
    simp [route_question, dictGet, hl]
  · cases v with
    | other =>
        left
        simp [route_question, dictGet, hl]
    | str s =>
        by_cases h1 : s = "doc_search"
        · left
          simp [route_question, dictGet, hl, h1]
        · by_cases h2 : s = "web_search"
          · cases e with
            | false =>
                left
                simp [route_question, dictGet, hl, h2]
            | true =>
                right; right
                subst h2
                exact ⟨by simp [route_question, dictGet, hl], rfl, rfl⟩
          · by_cases h3 : s = "generate"
            · right; left
              simp [route_question, dictGet, hl, h3]
            · left
              simp [route_question, dictGet, hl, h1, h2, h3]

/-- With internet search disabled the conditional edge after `doc_search`
always selects `generate`. -/
theorem decide_after_doc_search_disabled (st : GraphState) :
    decide_after_doc_search false st = "generate" := by
  simp [decide_after_doc_search]

/-- Every successful `route_question` of the `AgentWorkflow` revision on a
parsed JSON object yields `doc_search`, `generate`, or — whenever the
model explicitly asked for it, with no regard to the internet-search
flag — `web_search`. -/
theorem agentworkflow_route_question_dict_cases
    (kvs : List (String × PyValue)) :
    AgentWorkflow.route_question (ChainResult.dict kvs)
      = Except.ok ("doc_search")
    ∨ AgentWorkflow.route_question (ChainResult.dict kvs)
      = Except.ok ("generate")
    ∨ (AgentWorkflow.route_question (ChainResult.dict kvs)
        = Except.ok ("web_search")
        ∧ kvs.lookup ("choice") = some (PyValue.str ("web_search"))) := by
  rcases hl : kvs.lookup ("choice") with _ | v
  · left
    simp [AgentWorkflow.route_question, dictGet, hl]
  · cases v with
    | other =>
        left
        simp [AgentWorkflow.route_question, dictGet, hl]
    | str s =>
        by_cases h1 : s = "doc_search"
        · left
          simp [AgentWorkflow.route_question, dictGet, hl, h1]
        · by_cases h2 : s = "web_search"
          · right; right
            subst h2
            exact ⟨by simp [AgentWorkflow.route_question, dictGet, hl],
              rfl⟩
          · by_cases h3 : s = "generate"
            · right; left
              simp [AgentWorkflow.route_question, dictGet, hl, h3]
            · left
              simp [AgentWorkflow.route_question, dictGet, hl, h1, h2, h3]

/-- C1 counterexample: the graph composed in `AgentWorkflow.py` — the one
`main.py`, `streamlit_app.py` and `api_server.py` construct — binds the
`route_question` without the internet-disabled downgrade, so with
`enable_internet_search = false` and router output
`{"choice": "web_search"}` the invocation executes `transform_query` and
`web_search`: a web-provider call occurs, falsifying the claim. -/
theorem web_call_despite_internet_disabled :
    Node.web_search ∈ (AgentWorkflow.runWorkflow false
        ⟨ChainResult.dict [("choice", PyValue.str ("web_search"))],
          fun _ => "", fun q => q, fun _ => "", fun _ => ""⟩
        ⟨"latest version of X", none, none, [], none⟩).2
    ∧ Node.transform_query ∈ (AgentWorkflow.runWorkflow false
        ⟨ChainResult.dict [("choice", PyValue.str ("web_search"))],
          fun _ => "", fun q => q, fun _ => "", fun _ => ""⟩
        ⟨"latest version of X", none, none, [], none⟩).2 := by
  decide

/-- C1 (amended): in the graph composed in `AgentWorkflow.py`, invoked
with `enable_internet_search = false`, the web path is executed only when
the router chain's output names `web_search` — that revision's
`route_question` performs no downgrade.  In every other case (a
`doc_search` or `generate` choice, or any defective output coerced to
`doc_search`) the trace never contains `web_search` (hence no
web-provider call) nor `transform_query`, because
`decide_after_doc_search` routes empty document context to `generate`
while internet search is disabled. -/
theorem no_web_call_when_router_not_web (env : Oracle) (st : GraphState)
    (h : ∀ kvs, env.router_output = ChainResult.dict kvs →
      kvs.lookup ("choice") ≠ some (PyValue.str ("web_search"))) :
    Node.web_search ∉ (AgentWorkflow.runWorkflow false env st).2
    ∧ Node.transform_query ∉ (AgentWorkflow.runWorkflow false env st).2 := by
  cases hout : env.router_output with
  | parseFailure =>
      simp [AgentWorkflow.runWorkflow, AgentWorkflow.route_question, hout]
  | nonDict =>
      simp [AgentWorkflow.runWorkflow, AgentWorkflow.route_question, hout]
  | dict kvs =>
      rcases agentworkflow_route_question_dict_cases kvs with hr | hr | hr
      · have hdec := decide_after_doc_search_disabled (doc_search env st)
        simp [AgentWorkflow.runWorkflow, hout, hr, hdec]
      · simp [AgentWorkflow.runWorkflow, hout, hr]
      · exact absurd hr.2 (h kvs hout)

theorem no_web_call_when_router_not_web_witness :
    Node.web_search ∉ (AgentWorkflow.runWorkflow false
        ⟨ChainResult.dict [("choice", PyValue.str ("generate"))],
          fun _ => "", fun q => q, fun _ => "", fun _ => ""⟩
        ⟨"capital of France", none, none, [], none⟩).2
    ∧ Node.transform_query ∉ (AgentWorkflow.runWorkflow false
        ⟨ChainResult.dict [("choice", PyValue.str ("generate"))],
          fun _ => "", fun q => q, fun _ => "", fun _ => ""⟩
        ⟨"capital of France", none, none, [], none⟩).2 :=
  no_web_call_when_router_not_web
    ⟨ChainResult.dict [("choice", PyValue.str ("generate"))],
      fun _ => "", fun q => q, fun _ => "", fun _ => ""⟩
    ⟨"capital of France", none, none, [], none⟩
    (by intro kvs hk; injection hk with h; cases h; decide)

/-- C3 counterexample: when the completion output cannot be parsed as
JSON, the router chain's `JsonOutputParser` raises and `route_question`
propagates the exception — it does not return `doc_search`. -/
theorem route_question_raises_on_parse_failure :
    route_question true ChainResult.parseFailure
      = Except.error PyError.outputParserException
    ∧ ∀ c : String,
        route_question true ChainResult.parseFailure ≠ Except.ok c := by
  refine ⟨rfl, ?_⟩
  intro c h
  simp [route_question] at h

/-- C3 (amended): whenever the completion output parses to a JSON object,
`route_question` returns without raising, and it returns `doc_search` in
every defective case — `choice` field missing, or the `choice` value not
one of `doc_search`/`web_search`/`generate` (a non-string value or an
out-of-enum string).  An unparseable completion, or one parsing to a
non-object, instead raises out of `route_question`. -/
theorem route_question_defensive_dict (e : Bool)
    (kvs : List (String × PyValue))
    (h : kvs.lookup ("choice") = none
       ∨ kvs.lookup ("choice") = some PyValue.other
       ∨ ∃ s, kvs.lookup ("choice") = some (PyValue.str s)
           ∧ s ≠ "doc_search" ∧ s ≠ "web_search" ∧ s ≠ "generate") :
    route_question e (ChainResult.dict kvs) = Except.ok ("doc_search") := by
  rcases h with hl | hl | ⟨s, hl, h1, h2, h3⟩
  · simp [route_question, dictGet, hl]
  · simp [route_question, dictGet, hl]
  · simp [route_question, dictGet, hl, h1, h2, h3]

theorem route_question_defensive_dict_witness :
    route_question true (ChainResult.dict [("choice", PyValue.str ("banana"))])
      = Except.ok ("doc_search") :=
  route_question_defensive_dict true [("choice", PyValue.str ("banana"))]
    (Or.inr (Or.inr ⟨"banana", by decide, by decide, by decide, by decide⟩))

/-- C5: the `context` variable handed to the generate chain is never
unset — a missing, `None`, or empty context is replaced by the fixed
internal-knowledge marker, and any non-empty context is passed through
unchanged. -/
theorem generate_context_never_unset (st : GraphState) :
    ((st.context = none ∨ st.context = some ("")) →
      (generate_chain_input st).context = internal_knowledge_marker)
    ∧ (∀ c : String, st.context = some c → c ≠ "" →
      (generate_chain_input st).context = c) := by
  constructor
  · rintro (h | h) <;> simp [generate_chain_input, h]
  · intro c hc hne
    simp [generate_chain_input, hc, hne]

theorem generate_context_never_unset_witness :
    (generate_chain_input ⟨"q", none, none, [], none⟩).context
      = internal_knowledge_marker :=
  (generate_context_never_unset ⟨"q", none, none, [], none⟩).1 (Or.inl rfl)

/-- C7: `decide_after_doc_search` returns `web_search` exactly when the
context is empty or all-whitespace *and* internet search is enabled, and
returns `generate` in every other case — in particular whenever the
document path produced non-blank context. -/
theorem decide_after_doc_search_iff (e : Bool) (st : GraphState) :
    (decide_after_doc_search e st = "web_search"
      ↔ ((st.context.getD ("") = "" ∨ (st.context.getD ("")).trim.length = 0)
          ∧ e = true))
    ∧ (decide_after_doc_search e st = "generate"
      ↔ ¬ ((st.context.getD ("") = "" ∨ (st.context.getD ("")).trim.length = 0)
          ∧ e = true)) := by
  unfold decide_after_doc_search
  by_cases hb : (st.context.getD ("") = ""
      ∨ (st.context.getD ("")).trim.length = 0)
  · rw [if_pos hb]
    cases e <;> simp [hb]
  · rw [if_neg hb]
    simp [hb]

/-- C10: the `web_search` node queries the provider with the raw question
whenever `search_query` is missing, `None`, or empty, and with the stored
`search_query` verbatim whenever it is non-empty. -/
theorem web_search_uses_question_when_no_query (env : Oracle)
    (st : GraphState) :
    ((st.search_query = none ∨ st.search_query = some ("")) →
      (web_search env st).2 = st.question)
    ∧ (∀ s : String, st.search_query = some s → s ≠ "" →
      (web_search env st).2 = s) := by
  constructor
  · rintro (h | h) <;> simp [web_search, h]
  · intro s hs hne
    simp [web_search, hs, hne]

theorem web_search_uses_question_when_no_query_witness :
    (web_search
        ⟨ChainResult.nonDict, fun _ => "", fun q => q, fun _ => "",
          fun _ => ""⟩
        ⟨"what is X", none, none, [], none⟩).2 = "what is X" :=
  (web_search_uses_question_when_no_query
    ⟨ChainResult.nonDict, fun _ => "", fun q => q, fun _ => "", fun _ => ""⟩
    ⟨"what is X", none, none, [], none⟩).1 (Or.inl rfl)

/-- C4: `web_search_with_fallback` never raises — a primary-provider
success is returned as-is, a primary failure falls back to the Wikipedia
provider, and a double failure yields the descriptive
`Search failed: ... Fallback failed: ...` string as the context value. -/
theorem web_search_with_fallback_no_raise (st : Prompt.RateState) (now : ℚ)
    (ddg wiki : Except String String) :
    (∀ r, ddg = Except.ok r →
      (Prompt.web_search_with_fallback st now ddg wiki).2.2 = r)
    ∧ (∀ e w, ddg = Except.error e → wiki = Except.ok w →
      (Prompt.web_search_with_fallback st now ddg wiki).2.2 = w)
    ∧ (∀ e we, ddg = Except.error e → wiki = Except.error we →
      (Prompt.web_search_with_fallback st now ddg wiki).2.2
        = "Search failed: " ++ e ++ ". Fallback failed: " ++ we) := by
  refine ⟨?_, ?_, ?_⟩
  · intro r h
    simp [Prompt.web_search_with_fallback, h]
  · intro e w h hw
    simp [Prompt.web_search_with_fallback, h, hw]
  · intro e we h hw
    simp [Prompt.web_search_with_fallback, h, hw]

theorem web_search_with_fallback_no_raise_witness :
    (Prompt.web_search_with_fallback ⟨0⟩ 5 (Except.error ("rate limited"))
        (Except.error ("wiki down"))).2.2
      = "Search failed: " ++ "rate limited" ++ ". Fallback failed: "
          ++ "wiki down" :=
  (web_search_with_fallback_no_raise ⟨0⟩ 5 (Except.error ("rate limited"))
    (Except.error ("wiki down"))).2.2 "rate limited" "wiki down" rfl rfl

namespace Prompt

theorem rateStep_last_eq_call (st : RateState) (now : ℚ) :
    (rateStep st now).1.last = (rateStep st now).2 := by
  simp only [rateStep]
  split <;> rfl

theorem rateStep_call_lower_bound (st : RateState) (now : ℚ) :
    st.last + 1 ≤ (rateStep st now).2 := by
  simp only [rateStep]
  split
  · show st.last + 1 ≤ now + (1 - (now - st.last))
    linarith
  · next h =>
      show st.last + 1 ≤ now
      linarith [not_lt.mp h]

end Prompt

/-- C6: two consecutive invocations of the primary web-search provider
through `web_search_with_fallback` — the second starting from the shared
class-level rate state the first left behind, as every caller in the
process does — are separated by at least 1 second of (idealised)
wall-clock time. -/
theorem web_search_min_interval (st : Prompt.RateState) (now1 now2 : ℚ)
    (ddg1 wiki1 ddg2 wiki2 : Except String String) :
    (Prompt.web_search_with_fallback st now1 ddg1 wiki1).2.1 + 1
      ≤ (Prompt.web_search_with_fallback
          (Prompt.web_search_with_fallback st now1 ddg1 wiki1).1
          now2 ddg2 wiki2).2.1 := by
  show (Prompt.rateStep st now1).2 + 1
      ≤ (Prompt.rateStep (Prompt.rateStep st now1).1 now2).2
  calc (Prompt.rateStep st now1).2 + 1
      = (Prompt.rateStep st now1).1.last + 1 := by
        rw [Prompt.rateStep_last_eq_call]
    _ ≤ (Prompt.rateStep (Prompt.rateStep st now1).1 now2).2 :=
        Prompt.rateStep_call_lower_bound _ _

end Koios
